import Mathlib

/-
Verification development for the FlashcardsApp repository
(src/unnamed/part_000, a single-file React flashcards application).

The core under verification: the quote-aware CSV line tokenizer
(splitCSVLine), the document parser (parseCSV), the serializer
(exportAllAsCSV), the ingestion append protocol (handleFiles /
loadFromUrl, both of which append via a functional update of the
previous deck value), the clear operation (clearAll) and the
localStorage persistence lifecycle (load-on-start, save-on-change).

Strings are modelled by Lean strings (lists of characters); the
JavaScript functions are translated statement by statement.  Identifier
generation uses Date.now() and Math.random(); these are modelled as
explicit numeric / string parameters supplied per completion, since the
code takes them from the environment.
-/

/-- One deck entry: either a separator naming a source, or a study card.
Mirrors the loose objects tagged with field type equal to the string
separator or card in the source. -/
inductive Entry where
  | separator (id : String) (title : String)
  | card (id : String) (question : String) (answer : String)
deriving DecidableEq, Repr

def entryId : Entry → String
  | .separator i _ => i
  | .card i _ _ => i

def isSeparator : Entry → Bool
  | .separator _ _ => true
  | _ => false

def isCard : Entry → Bool
  | .card _ _ _ => true
  | _ => false

/-- One parsed row: question and answer, both already trimmed.
Mirrors the object with fields question and answer built in parseCSV. -/
structure QA where
  question : String
  answer : String
deriving DecidableEq, Repr

/-- Character-level scan of splitCSVLine (part_000 lines 45-67).
Arguments: remaining characters, current field, inside-quotes flag,
fields emitted so far.  A quote toggles the flag unless it is a doubled
quote while inside quotes (which emits one literal quote); a comma
splits only outside quotes; every other character accumulates. -/
def splitAux : List Char → List Char → Bool → List (List Char) → List (List Char)
  | [], cur, _, acc => acc ++ [cur]
  | '"' :: '"' :: cs, cur, true, acc => splitAux cs (cur ++ ['"']) true acc
  | '"' :: cs, cur, true, acc => splitAux cs cur false acc
  | '"' :: cs, cur, false, acc => splitAux cs cur true acc
  | c :: cs, cur, inQ, acc =>
    if c = ',' ∧ inQ = false then splitAux cs [] false (acc ++ [cur])
    else splitAux cs (cur ++ [c]) inQ acc

/-- splitCSVLine from part_000: tokenize one line, starting outside
quotes with an empty current field; the final field is always emitted. -/
def splitCSVLine (line : String) : List String :=
  (splitAux line.data [] false []).map List.asString

/-- Whitespace characters removed by the JavaScript string trim method
(ASCII whitespace, no-break space, BOM, and the two line separators). -/
def isJsWS (c : Char) : Bool :=
  c = ' ' || c = '\t' || c = '\n' || c = '\r' || c.toNat = 11 || c.toNat = 12 ||
  c.toNat = 160 || c.toNat = 65279 || c.toNat = 8232 || c.toNat = 8233

def trimL (l : List Char) : List Char :=
  ((l.dropWhile isJsWS).reverse.dropWhile isJsWS).reverse

/-- The trim method used on each row and on each column in parseCSV. -/
def jsTrim (s : String) : String := (trimL s.data).asString

/-- Rows of the document: text.split on line breaks, each row trimmed
(part_000 line 70).  The source splits on a line feed optionally
preceded by a carriage return; since every row is trimmed immediately
and trimming removes carriage returns, splitting on the line feed alone
yields the same trimmed rows. -/
def linesOf (text : String) : List String :=
  (List.splitOn '\n' text.data).map (fun l => (trimL l).asString)

/-- Body of the row loop of parseCSV (part_000 lines 72-79): skip blank
rows, tokenize, take columns 0 and 1 (missing column becomes the empty
string), trim both, and keep the pair unless both are empty. -/
def parseStep (out : List QA) (line : String) : List QA :=
  if line = "" then out
  else
    let cols := splitCSVLine line
    let q := jsTrim (cols.getD 0 "")
    let a := jsTrim (cols.getD 1 "")
    if q ≠ "" ∨ a ≠ "" then out ++ [⟨q, a⟩] else out

def parseRows (rows : List String) : List QA := rows.foldl parseStep []

/-- parseCSV from part_000 lines 69-81. -/
def parseCSV (text : String) : List QA := parseRows (linesOf text)

/-- Replace every quote by a doubled quote, as the regex replace in
exportAllAsCSV does. -/
def escChars : List Char → List Char
  | [] => []
  | c :: cs => if c = '"' then '"' :: '"' :: escChars cs else c :: escChars cs

/-- Field serializer of exportAllAsCSV (part_000 lines 145-152): a field
containing a comma, a quote or a line break is quote-wrapped with inner
quotes doubled; any other field is emitted literally. -/
def serField (l : List Char) : List Char :=
  if ',' ∈ l ∨ '"' ∈ l ∨ '\n' ∈ l then '"' :: (escChars l ++ ['"']) else l

def csvField (s : String) : String := (serField s.data).asString

/-- Array.prototype.join with the given separator string. -/
def strJoin (sep : String) : List String → String
  | [] => ""
  | x :: xs => xs.foldl (fun acc y => acc ++ sep ++ y) x

/-- Row built per entry in exportAllAsCSV (part_000 lines 141-144): a
separator becomes a one-field row of a hash sign followed by its title;
a card becomes the two-field row of its question and answer. -/
def entryRow : Entry → List String
  | .separator _ title => ["#" ++ title]
  | .card _ q a => [q, a]

/-- The text produced by exportAllAsCSV (part_000 lines 138-152): each
row's fields are serialized and comma-joined, rows are joined with a
single line feed. -/
def exportAllAsCSV (deck : List Entry) : String :=
  strJoin "\n" ((deck.map entryRow).map (fun r => strJoin "," (r.map csvField)))

/-- Fuel-driven digit extraction; the fuel is an upper bound on the
number to print, so the zero-fuel case is only ever reached with n = 0. -/
def natStrGo : Nat → Nat → List Char
  | 0, n => [Nat.digitChar n]
  | fuel + 1, n =>
    if n < 10 then [Nat.digitChar n]
    else natStrGo fuel (n / 10) ++ [Nat.digitChar (n % 10)]

/-- Decimal digit string of a natural number, most significant digit
first: the text produced when a JavaScript integer (such as a Date.now()
value or a row index) is spliced into a template literal. -/
def natStr (n : Nat) : List Char := natStrGo n n

/-- Separator identifier template of part_000 lines 93 and 114, with the
Date.now() sample and the stringified Math.random() sample explicit. -/
def sepId (t : Nat) (r : String) : String :=
  "sep-" ++ (natStr t).asString ++ "-" ++ r

/-- Card identifier template of part_000 lines 94 and 115: source name,
row index, Date.now() sample. -/
def cardId (name : String) (idx : Nat) (t : Nat) : String :=
  name ++ "-" ++ (natStr idx).asString ++ "-" ++ (natStr t).asString

/-- One ingestion source as seen at the moment its load completes: its
name, its text content, and the environment samples its identifier
templates read (Date.now() at the separator, Date.now() at each card
index, Math.random() stringified). -/
structure FileSrc where
  name : String
  text : String
  sepTime : Nat
  cardTime : Nat → Nat
  rand : String

/-- The mapped card list of the append (part_000 line 94): one card per
parsed pair, indexed from the given starting index. -/
def cardsFrom (name : String) (ct : Nat → Nat) : Nat → List QA → List Entry
  | _, [] => []
  | i, p :: ps =>
    Entry.card (cardId name i (ct i)) p.question p.answer :: cardsFrom name ct (i + 1) ps

/-- The block appended when one source's load completes (part_000 lines
91-95): one separator followed by that source's cards in parsed order. -/
def loadEntries (f : FileSrc) : List Entry :=
  Entry.separator (sepId f.sepTime f.rand) f.name
    :: cardsFrom f.name f.cardTime 0 (parseCSV f.text)

/-- One completion of a file load: setCards(prev => [...prev, separator,
...cards]) is a pure transformation of the latest deck value. -/
def handleFileLoad (deck : List Entry) (f : FileSrc) : List Entry :=
  deck ++ loadEntries f

/-- A whole batch of completions in the order the load tasks resumed:
each append reads the deck produced by the previous completion. -/
def runLoads (d0 : List Entry) (ops : List FileSrc) : List Entry :=
  ops.foldl handleFileLoad d0

/-- Outcome of the fetch in loadFromUrl: a transport error (fetch
rejects), or a response with its ok flag and body text. -/
inductive FetchResult where
  | transportError (msg : String)
  | response (ok : Bool) (body : String)

/-- Separator title for a URL (part_000 line 111): the last segment
after splitting on slashes, or the whole URL when that segment is the
empty string. -/
def urlName (url : String) : String :=
  let last := (url.splitOn "/").getLastD ""
  if last = "" then url else last

/-- loadFromUrl (part_000 lines 105-120).  On a transport error or a
response whose ok flag is false the deck is returned unchanged together
with the alert message; on success the parsed block is appended and no
alert is raised. -/
def loadFromUrl (url : String) (fr : FetchResult) (ts : Nat) (tc : Nat → Nat)
    (r : String) (deck : List Entry) : List Entry × Option String :=
  match fr with
  | .transportError m => (deck, some ("Error cargando desde URL: " ++ m))
  | .response ok body =>
    if ok then
      (deck ++ loadEntries ⟨urlName url, body, ts, tc, r⟩, none)
    else
      (deck, some ("Error cargando desde URL: No se pudo obtener el archivo"))

/-- JSON-like values: the shape of anything JSON.parse can return for
the stored snapshot. -/
inductive JVal where
  | jnull
  | jbool (b : Bool)
  | jnum (n : Int)
  | jstr (s : String)
  | jarr (l : List JVal)
  | jobj (fields : List (String × JVal))

/-- String-valued field access on a parsed object, as the application
reads the type, title, id, question and answer fields of a stored
entry; anything that is not a string field reads as the empty string. -/
def getStr (v : JVal) (k : String) : String :=
  match v with
  | .jobj fs =>
    match fs.lookup k with
    | some (.jstr s) => s
    | _ => ""
  | _ => ""

/-- The JSON object written for one entry by JSON.stringify of the cards
array, with the field order of the object literals in part_000. -/
def encodeEntry : Entry → JVal
  | .separator i t =>
    .jobj [("type", .jstr "separator"), ("title", .jstr t), ("id", .jstr i)]
  | .card i q a =>
    .jobj [("type", .jstr "card"), ("question", .jstr q), ("answer", .jstr a), ("id", .jstr i)]

/-- The typed view the application takes of one stored object: entries
whose type field is the string separator are used as separators, all
others as cards, through the duck-typed field reads above. -/
def decodeEntry (v : JVal) : Entry :=
  if getStr v "type" = "separator" then .separator (getStr v "id") (getStr v "title")
  else .card (getStr v "id") (getStr v "question") (getStr v "answer")

/-- The save-on-change effect (part_000 lines 31-42): a non-empty deck
overwrites the stored item with the serialized cards array; an empty
deck removes the stored item. -/
def saveEffect (cards : List Entry) : Option JVal :=
  if cards.length > 0 then some (.jarr (cards.map encodeEntry)) else none

/-- The load-on-start effect (part_000 lines 16-28) over the stored
state: none means no stored item, some none a stored item JSON.parse
throws on, some (some v) a stored item parsing to v.  Result: the
initial deck and whether the catch branch logged an error.  The deck is
adopted only when the parsed value is an array with positive length. -/
def loadSnapshotOnStart (stored : Option (Option JVal)) : List Entry × Bool :=
  match stored with
  | none => ([], false)
  | some none => ([], true)
  | some (some v) =>
    match v with
    | .jarr l => if l.length > 0 then (l.map decodeEntry, false) else ([], false)
    | _ => ([], false)

/-- Deck store state as far as clearAll touches it: the in-memory cards
and the stored snapshot item. -/
structure StoreState where
  cards : List Entry
  snapshot : Option JVal

/-- clearAll (part_000 lines 131-136): a refused confirmation returns
before any mutation; a granted one empties the deck and removes the
stored item (directly, and again through the save effect on the now
empty deck). -/
def clearAll (confirmed : Bool) (s : StoreState) : StoreState :=
  if confirmed then { cards := [], snapshot := none } else s

example : splitCSVLine "A,B" = ["A", "B"] := by decide
example : splitCSVLine "\"C, D\",\"E\"\"F\"" = ["C, D", "E\"F"] := by decide
example : parseCSV "A,B\n\"C, D\",\"E\"\"F\"" =
    [⟨"A", "B"⟩, ⟨"C, D", "E\"F"⟩] := by decide
example : parseCSV " \n\n" = [] := by decide

lemma asString_data (s : String) : s.data.asString = s := rfl

lemma data_asString (l : List Char) : (List.asString l).data = l := rfl

lemma splitAux_other (c : Char) (cs cur acc) (inQ : Bool) (hq : c ≠ '"') (hc : c ≠ ',') :
    splitAux (c :: cs) cur inQ acc = splitAux cs (cur ++ [c]) inQ acc := by
  cases inQ <;> simp [splitAux, hq, hc]

lemma splitAux_comma (cs cur acc) :
    splitAux (',' :: cs) cur false acc = splitAux cs [] false (acc ++ [cur]) := by
  simp [splitAux]

lemma splitAux_comma_inQ (cs cur acc) :
    splitAux (',' :: cs) cur true acc = splitAux cs (cur ++ [',']) true acc := by
  simp [splitAux]

lemma splitAux_open (cs cur acc) :
    splitAux ('"' :: cs) cur false acc = splitAux cs cur true acc := by
  simp [splitAux]

lemma splitAux_dquote (cs cur acc) :
    splitAux ('"' :: '"' :: cs) cur true acc = splitAux cs (cur ++ ['"']) true acc := by
  simp [splitAux]

lemma splitAux_close (c : Char) (cs cur acc) (h : c ≠ '"') :
    splitAux ('"' :: c :: cs) cur true acc = splitAux (c :: cs) cur false acc := by
  simp [splitAux, h]

lemma splitAux_close_nil (cur acc) :
    splitAux ['"'] cur true acc = acc ++ [cur] := by
  simp [splitAux]

lemma splitAux_lit (xs : List Char) (hq : '"' ∉ xs) (hc : ',' ∉ xs) :
    ∀ rest cur acc, splitAux (xs ++ rest) cur false acc = splitAux rest (cur ++ xs) false acc := by
  induction xs with
  | nil => intro rest cur acc; simp
  | cons c xs ih =>
    intro rest cur acc
    have hq' : c ≠ '"' := fun h => hq (h ▸ List.mem_cons_self c xs)
    have hc' : c ≠ ',' := fun h => hc (h ▸ List.mem_cons_self c xs)
    rw [List.cons_append, splitAux_other c _ _ _ _ hq' hc',
      ih (fun h => hq (List.mem_cons_of_mem c h)) (fun h => hc (List.mem_cons_of_mem c h)),
      List.append_assoc]
    rfl

lemma splitAux_inq (xs : List Char) (hq : '"' ∉ xs) :
    ∀ rest cur acc, splitAux (xs ++ rest) cur true acc = splitAux rest (cur ++ xs) true acc := by
  induction xs with
  | nil => intro rest cur acc; simp
  | cons c xs ih =>
    intro rest cur acc
    have hq' : c ≠ '"' := fun h => hq (h ▸ List.mem_cons_self c xs)
    have step : splitAux ((c :: xs) ++ rest) cur true acc
        = splitAux (xs ++ rest) (cur ++ [c]) true acc := by
      by_cases hc : c = ','
      · subst hc; rw [List.cons_append, splitAux_comma_inQ]
      · rw [List.cons_append, splitAux_other c _ _ _ _ hq' hc]
    rw [step, ih (fun h => hq (List.mem_cons_of_mem c h)), List.append_assoc]
    rfl

lemma splitAux_esc (f : List Char) :
    ∀ rest cur acc, splitAux (escChars f ++ rest) cur true acc = splitAux rest (cur ++ f) true acc := by
  induction f with
  | nil => intro rest cur acc; simp [escChars]
  | cons c f ih =>
    intro rest cur acc
    by_cases hc : c = '"'
    · subst hc
      show splitAux (('"' :: '"' :: escChars f) ++ rest) cur true acc = _
      rw [List.cons_append, List.cons_append, splitAux_dquote, ih, List.append_assoc]
      rfl
    · have hesc : escChars (c :: f) = c :: escChars f := by simp [escChars, hc]
      rw [hesc]
      have step : splitAux ((c :: escChars f) ++ rest) cur true acc
          = splitAux (escChars f ++ rest) (cur ++ [c]) true acc := by
        by_cases hcm : c = ','
        · subst hcm; rw [List.cons_append, splitAux_comma_inQ]
        · rw [List.cons_append, splitAux_other c _ _ _ _ hc hcm]
      rw [step, ih, List.append_assoc]
      rfl

lemma splitAux_field (f : List Char) (rest cur acc) (hr : rest.head? ≠ some '"') :
    splitAux (serField f ++ rest) cur false acc = splitAux rest (cur ++ f) false acc := by
  by_cases hs : ',' ∈ f ∨ '"' ∈ f ∨ '\n' ∈ f
  · have hser : serField f = '"' :: (escChars f ++ ['"']) := by simp [serField, hs]
    rw [hser, List.cons_append, splitAux_open, List.append_assoc, splitAux_esc]
    cases rest with
    | nil => rw [List.singleton_append, splitAux_close_nil]; simp [splitAux]
    | cons c cs =>
      have hc : c ≠ '"' := by
        intro h; exact hr (by simp [h])
      rw [List.singleton_append, splitAux_close c _ _ _ hc]
  · have hser : serField f = f := by simp [serField, hs]
    push_neg at hs
    rw [hser, splitAux_lit f hs.2.1 hs.1]

/-- C3: serializing two arbitrary fields with the serializer's quoting
rule, joining them with a comma and tokenizing the result returns
exactly the two original fields. -/
theorem claim3_field_round_trip (f1 f2 : String) :
    splitCSVLine (csvField f1 ++ "," ++ csvField f2) = [f1, f2] := by
  unfold splitCSVLine
  have hdata : (csvField f1 ++ "," ++ csvField f2).data
      = serField f1.data ++ (',' :: serField f2.data) := by
    rw [String.data_append, String.data_append]
    simp [csvField, data_asString, List.append_assoc]
  rw [hdata, splitAux_field f1.data _ _ _ (by simp)]
  rw [splitAux_comma]
  have h2 : serField f2.data = serField f2.data ++ [] := by simp
  rw [h2, splitAux_field f2.data _ _ _ (by simp)]
  simp [splitAux, asString_data]

/-- C9: a line that begins with an unmatched opening quote (no further
quote anywhere) tokenizes to exactly one field, the remainder of the
line with that quote removed; commas after the quote do not split. -/
theorem claim9_unmatched_quote (rest : String) (h : '"' ∉ rest.data) :
    splitCSVLine ("\"" ++ rest) = [rest] := by
  unfold splitCSVLine
  have hdata : ("\"" ++ rest).data = '"' :: rest.data := by
    rw [String.data_append]; rfl
  rw [hdata, splitAux_open]
  have h2 : rest.data = rest.data ++ [] := by simp
  rw [h2, splitAux_inq rest.data (by simpa using h)]
  simp [splitAux, asString_data]

/-- Witness for C9 at a concrete input: the line with an unmatched quote
followed by a comma keeps the comma inside the single output field. -/
theorem claim9_unmatched_quote_witness :
    '"' ∉ ("a,b".data) ∧ splitCSVLine ("\"" ++ "a,b") = ["a,b"] :=
  ⟨by decide, claim9_unmatched_quote "a,b" (by decide)⟩

/-- C5: clearAll acts only on a granted confirmation; granting empties
the deck and deletes the snapshot, refusing changes nothing. -/
theorem claim5_clear_confirmation (s : StoreState) :
    clearAll true s = { cards := [], snapshot := none } ∧ clearAll false s = s :=
  ⟨rfl, rfl⟩

/-- C6: a failed fetch (transport error or a response that is not ok)
leaves the deck unchanged and reports through the alert sink; a
successful fetch appends one separator titled with the last URL path
segment followed by the parsed cards, and reports nothing. -/
theorem claim6_load_from_url (url : String) (ts : Nat) (tc : Nat → Nat) (r : String)
    (deck : List Entry) :
    (∀ m, loadFromUrl url (.transportError m) ts tc r deck
        = (deck, some ("Error cargando desde URL: " ++ m)))
    ∧ (∀ body, loadFromUrl url (.response false body) ts tc r deck
        = (deck, some "Error cargando desde URL: No se pudo obtener el archivo"))
    ∧ (∀ body, loadFromUrl url (.response true body) ts tc r deck
        = (deck ++ Entry.separator (sepId ts r) (urlName url)
            :: cardsFrom (urlName url) tc 0 (parseCSV body), none)) :=
  ⟨fun _ => rfl, fun _ => rfl, fun _ => rfl⟩

/-- C8: the deck of one separator titled file1.csv and one card Q / A
serializes to exactly the expected two-row text, with no trailing line
break. -/
theorem claim8_export_example (i j : String) :
    exportAllAsCSV [Entry.separator i "file1.csv", Entry.card j "Q" "A"]
      = "#file1.csv\nQ,A" := rfl

/-- C10: a stored value that parses but is not an array, or is the empty
array, yields the empty initial deck and surfaces no error. -/
theorem claim10_snapshot_fail_open (v : JVal)
    (h : (∀ l, v ≠ JVal.jarr l) ∨ v = JVal.jarr []) :
    loadSnapshotOnStart (some (some v)) = ([], false) := by
  rcases h with h | h
  · cases v with
    | jarr l => exact absurd rfl (h l)
    | jnull => rfl
    | jbool b => rfl
    | jnum n => rfl
    | jstr s => rfl
    | jobj fs => rfl
  · subst h; rfl

/-- Witness for C10 at a concrete non-array stored value. -/
theorem claim10_snapshot_fail_open_witness :
    ((∀ l, JVal.jstr "oops" ≠ JVal.jarr l) ∨ JVal.jstr "oops" = JVal.jarr [])
    ∧ loadSnapshotOnStart (some (some (JVal.jstr "oops"))) = ([], false) :=
  ⟨Or.inl (fun _ h => JVal.noConfusion h),
   claim10_snapshot_fail_open _ (Or.inl (fun _ h => JVal.noConfusion h))⟩

lemma decode_encode (e : Entry) : decodeEntry (encodeEntry e) = e := by
  cases e with
  | separator i t => rfl
  | card i q a => rfl

/-- C7: writing a non-empty deck through the save effect and reading it
back through the startup load reproduces the same deck, entry for
entry, with no error logged. -/
theorem claim7_snapshot_round_trip (deck : List Entry) (h : deck ≠ []) :
    loadSnapshotOnStart ((saveEffect deck).map some) = (deck, false) := by
  have hlen : deck.length > 0 := List.length_pos.mpr h
  have hsave : saveEffect deck = some (.jarr (deck.map encodeEntry)) := by
    simp [saveEffect, hlen]
  rw [hsave]
  show loadSnapshotOnStart (some (some (.jarr (deck.map encodeEntry)))) = (deck, false)
  have hlen2 : (deck.map encodeEntry).length > 0 := by simpa using hlen
  simp only [loadSnapshotOnStart, if_pos hlen2, List.map_map]
  simp [Function.comp_def, decode_encode]

/-- Witness for C7 at a concrete one-card deck. -/
theorem claim7_snapshot_round_trip_witness :
    ([Entry.card "i" "Q" "A"] ≠ ([] : List Entry))
    ∧ loadSnapshotOnStart ((saveEffect [Entry.card "i" "Q" "A"]).map some)
        = ([Entry.card "i" "Q" "A"], false) :=
  ⟨by decide, claim7_snapshot_round_trip _ (by decide)⟩

lemma parseStep_mem (out : List QA) (line : String) (p : QA)
    (hp : p ∈ parseStep out line) :
    p ∈ out ∨ ¬(p.question = "" ∧ p.answer = "") := by
  by_cases h1 : line = ""
  · simp [parseStep, h1] at hp
    exact Or.inl hp
  · simp only [parseStep, if_neg h1] at hp
    by_cases h2 : jsTrim ((splitCSVLine line).getD 0 "") ≠ ""
        ∨ jsTrim ((splitCSVLine line).getD 1 "") ≠ ""
    · rw [if_pos h2] at hp
      rcases List.mem_append.mp hp with h | h
      · exact Or.inl h
      · right
        have hp2 := List.mem_singleton.mp h
        subst hp2
        rintro ⟨hq, ha⟩
        rcases h2 with h2 | h2
        · exact h2 hq
        · exact h2 ha
    · rw [if_neg h2] at hp
      exact Or.inl hp

lemma foldl_parseStep_mem :
    ∀ (rows : List String) (out : List QA) (p : QA),
      p ∈ List.foldl parseStep out rows → p ∈ out ∨ ¬(p.question = "" ∧ p.answer = "") := by
  intro rows
  induction rows with
  | nil => intro out p hp; exact Or.inl hp
  | cons r rows ih =>
    intro out p hp
    rcases ih (parseStep out r) p hp with h | h
    · exact parseStep_mem out r p h
    · exact Or.inr h

lemma foldl_parseStep_filter :
    ∀ (rows : List String) (out : List QA),
      List.foldl parseStep out (rows.filter (fun r => r ≠ "")) = List.foldl parseStep out rows := by
  intro rows
  induction rows with
  | nil => intro out; rfl
  | cons r rows ih =>
    intro out
    rw [List.filter_cons]
    by_cases h : r = ""
    · subst h
      rw [if_neg (by simp), ih out]
      rfl
    · rw [if_pos (by simp [h])]
      simp only [List.foldl_cons]
      exact ih _

/-- C4: every pair parseCSV produces has a non-empty question or a
non-empty answer, and rows that are blank after trimming contribute
nothing: dropping them before the row loop changes no output. -/
theorem claim4_pairs_nonempty (text : String) :
    (∀ p ∈ parseCSV text, ¬(p.question = "" ∧ p.answer = ""))
    ∧ parseRows ((linesOf text).filter (fun r => r ≠ "")) = parseCSV text := by
  constructor
  · intro p hp
    rcases foldl_parseStep_mem (linesOf text) [] p hp with h | h
    · exact absurd h (List.not_mem_nil p)
    · exact h
  · exact foldl_parseStep_filter (linesOf text) []

/-- Witness for C4 at a concrete document containing a blank row. -/
theorem claim4_pairs_nonempty_witness :
    (⟨"Q", "A"⟩ : QA) ∈ parseCSV "Q,A\n \n" ∧ ¬((("Q" : String)) = "" ∧ ("A" : String) = "") :=
  ⟨by decide, (claim4_pairs_nonempty "Q,A\n \n").1 ⟨"Q", "A"⟩ (by decide)⟩

lemma runLoads_eq (d0 : List Entry) (ops : List FileSrc) :
    runLoads d0 ops = d0 ++ (ops.map loadEntries).flatten := by
  induction ops generalizing d0 with
  | nil => simp [runLoads]
  | cons f ops ih =>
    have h1 : runLoads d0 (f :: ops) = runLoads (d0 ++ loadEntries f) ops := rfl
    rw [h1, ih]
    simp

lemma countP_cardsFrom_sep (name : String) (ct : Nat → Nat) :
    ∀ (i : Nat) (ps : List QA), List.countP isSeparator (cardsFrom name ct i ps) = 0 := by
  intro i ps
  induction ps generalizing i with
  | nil => rfl
  | cons p ps ih => simp [cardsFrom, List.countP_cons, isSeparator, ih]

lemma countP_cardsFrom_card (name : String) (ct : Nat → Nat) :
    ∀ (i : Nat) (ps : List QA), List.countP isCard (cardsFrom name ct i ps) = ps.length := by
  intro i ps
  induction ps generalizing i with
  | nil => rfl
  | cons p ps ih => simp [cardsFrom, List.countP_cons, isCard, ih]

lemma countP_loadEntries_sep (f : FileSrc) :
    List.countP isSeparator (loadEntries f) = 1 := by
  simp [loadEntries, List.countP_cons, isSeparator, countP_cardsFrom_sep]

lemma countP_loadEntries_card (f : FileSrc) :
    List.countP isCard (loadEntries f) = (parseCSV f.text).length := by
  simp [loadEntries, List.countP_cons, isCard, countP_cardsFrom_card]

/-- C1: under any completion order of the load tasks (any permutation of
the sources), the final deck is exactly the concatenation, in completion
order, of one block per source, each block being that source's separator
immediately followed by its cards in parsed order; in particular the
deck from the empty start holds exactly one separator per source and the
total number of parsed cards, and each append is a pure transformation
of the latest deck value (the foldl step), so nothing is lost or
duplicated. -/
theorem claim1_append_protocol (d0 : List Entry) (sources order : List FileSrc)
    (h : order.Perm sources) :
    runLoads d0 order = d0 ++ (order.map loadEntries).flatten
    ∧ List.countP isSeparator (runLoads [] order) = sources.length
    ∧ List.countP isCard (runLoads [] order)
        = (sources.map (fun s => (parseCSV s.text).length)).sum := by
  refine ⟨runLoads_eq d0 order, ?_, ?_⟩
  · rw [runLoads_eq, List.nil_append, List.countP_flatten, List.map_map]
    simp only [Function.comp_def, countP_loadEntries_sep]
    simpa using h.length_eq
  · rw [runLoads_eq, List.nil_append, List.countP_flatten, List.map_map]
    simp only [Function.comp_def, countP_loadEntries_card]
    exact (h.map (fun s => (parseCSV s.text).length)).sum_eq

/-- Two concrete sources used by witnesses: distinct names, contents,
timestamps and random samples. -/
def srcA : FileSrc := ⟨"a.csv", "Q,A", 1, fun _ => 1, "0.25"⟩

def srcB : FileSrc := ⟨"b.csv", "X,Y\nZ,W", 2, fun _ => 2, "0.5"⟩

/-- Witness for C1: two sources completing in the order opposite to
submission still produce one block per source, two separators and three
cards. -/
theorem claim1_append_protocol_witness :
    ([srcB, srcA].Perm [srcA, srcB])
    ∧ (runLoads [] [srcB, srcA] = [] ++ ([srcB, srcA].map loadEntries).flatten
       ∧ List.countP isSeparator (runLoads [] [srcB, srcA]) = [srcA, srcB].length
       ∧ List.countP isCard (runLoads [] [srcB, srcA])
           = ([srcA, srcB].map (fun s => (parseCSV s.text).length)).sum) :=
  ⟨List.Perm.swap srcA srcB [],
   claim1_append_protocol [] [srcA, srcB] [srcB, srcA] (List.Perm.swap srcA srcB [])⟩

/-- Decimal value of a digit string; left inverse of natStr, used to
prove natStr injective. -/
def strVal (l : List Char) : Nat :=
  l.foldl (fun a c => a * 10 + (c.toNat - 48)) 0

lemma strVal_append_digit (l : List Char) (c : Char) :
    strVal (l ++ [c]) = strVal l * 10 + (c.toNat - 48) := by
  simp [strVal, List.foldl_append]

lemma digitChar_toNat (d : Nat) (hd : d < 10) : (Nat.digitChar d).toNat = 48 + d := by
  interval_cases d <;> rfl

lemma natStrGo_strVal : ∀ fuel n, n ≤ fuel → strVal (natStrGo fuel n) = n := by
  intro fuel
  induction fuel with
  | zero =>
    intro n hn
    have h0 : n = 0 := Nat.le_zero.mp hn
    subst h0
    rfl
  | succ fuel ih =>
    intro n hn
    by_cases h : n < 10
    · rw [natStrGo, if_pos h]
      simp [strVal, digitChar_toNat n h]
    · rw [natStrGo, if_neg h]
      have hdiv : n / 10 ≤ fuel := by
        have : n / 10 < n := Nat.div_lt_self (by omega) (by omega)
        omega
      rw [strVal_append_digit, ih (n / 10) hdiv,
        digitChar_toNat (n % 10) (Nat.mod_lt n (by omega))]
      omega

lemma natStr_strVal (n : Nat) : strVal (natStr n) = n := natStrGo_strVal n n le_rfl

lemma natStr_inj {a b : Nat} (h : natStr a = natStr b) : a = b := by
  rw [← natStr_strVal a, h, natStr_strVal]

lemma natStrGo_digits : ∀ fuel n, n ≤ fuel → ∀ c ∈ natStrGo fuel n, 48 ≤ c.toNat ∧ c.toNat ≤ 57 := by
  intro fuel
  induction fuel with
  | zero =>
    intro n hn c hc
    have h0 : n = 0 := Nat.le_zero.mp hn
    subst h0
    have : c = Nat.digitChar 0 := List.mem_singleton.mp hc
    subst this
    decide
  | succ fuel ih =>
    intro n hn c hc
    by_cases h : n < 10
    · rw [natStrGo, if_pos h] at hc
      have hceq : c = Nat.digitChar n := List.mem_singleton.mp hc
      subst hceq
      rw [digitChar_toNat n h]
      omega
    · rw [natStrGo, if_neg h] at hc
      rcases List.mem_append.mp hc with h1 | h1
      · have hdiv : n / 10 ≤ fuel := by
          have : n / 10 < n := Nat.div_lt_self (by omega) (by omega)
          omega
        exact ih (n / 10) hdiv c h1
      · have hceq : c = Nat.digitChar (n % 10) := List.mem_singleton.mp h1
        subst hceq
        rw [digitChar_toNat (n % 10) (Nat.mod_lt n (by omega))]
        omega

lemma natStr_digits (n : Nat) : ∀ c ∈ natStr n, 48 ≤ c.toNat ∧ c.toNat ≤ 57 :=
  natStrGo_digits n n le_rfl

lemma dash_not_in_natStr (n : Nat) : '-' ∉ natStr n := by
  intro h
  have := natStr_digits n '-' h
  simp at this

lemma dot_not_in_natStr (n : Nat) : '.' ∉ natStr n := by
  intro h
  have := natStr_digits n '.' h
  simp at this

lemma append_sep_inj (c : Char) :
    ∀ (xs ys as bs : List Char), c ∉ xs → c ∉ ys →
      xs ++ c :: as = ys ++ c :: bs → xs = ys ∧ as = bs := by
  intro xs
  induction xs with
  | nil =>
    intro ys as bs _ hy h
    cases ys with
    | nil =>
      simp only [List.nil_append] at h
      exact ⟨rfl, List.cons.inj h |>.2⟩
    | cons y ys =>
      simp only [List.nil_append, List.cons_append] at h
      have h1 : c = y := (List.cons.inj h).1
      exact absurd (h1 ▸ List.mem_cons_self y ys) hy
  | cons x xs ih =>
    intro ys as bs hx hy h
    cases ys with
    | nil =>
      simp only [List.cons_append, List.nil_append] at h
      have h1 : x = c := (List.cons.inj h).1
      exact absurd (h1 ▸ List.mem_cons_self x xs) hx
    | cons y ys =>
      simp only [List.cons_append] at h
      have h1 : x = y := (List.cons.inj h).1
      have h2 := (List.cons.inj h).2
      have hr := ih ys as bs (fun m => hx (List.mem_cons_of_mem x m))
        (fun m => hy (List.mem_cons_of_mem y m)) h2
      exact ⟨by rw [h1, hr.1], hr.2⟩

lemma str_data_inj {s t : String} (h : s.data = t.data) : s = t := by
  rw [← asString_data s, ← asString_data t, h]

lemma sepId_data (t : Nat) (r : String) :
    (sepId t r).data = ['s', 'e', 'p'] ++ '-' :: (natStr t ++ '-' :: r.data) := by
  simp [sepId, String.data_append, data_asString]

lemma cardId_data (n : String) (i t : Nat) :
    (cardId n i t).data = n.data ++ '-' :: (natStr i ++ '-' :: natStr t) := by
  simp [cardId, String.data_append, data_asString]

lemma rev_shape (a b c : List Char) :
    (a ++ '-' :: (b ++ '-' :: c)).reverse
      = c.reverse ++ '-' :: (b.reverse ++ '-' :: a.reverse) := by
  simp

lemma cardId_inj {n1 n2 : String} {i j t1 t2 : Nat}
    (h : cardId n1 i t1 = cardId n2 j t2) : n1 = n2 ∧ i = j ∧ t1 = t2 := by
  have hd : (cardId n1 i t1).data = (cardId n2 j t2).data := by rw [h]
  rw [cardId_data, cardId_data] at hd
  have hrev := congrArg List.reverse hd
  rw [rev_shape, rev_shape] at hrev
  have hsplit := append_sep_inj '-' _ _ _ _
    (by simp [List.mem_reverse]; exact fun hm => dash_not_in_natStr t1 hm)
    (by simp [List.mem_reverse]; exact fun hm => dash_not_in_natStr t2 hm) hrev
  have ht : t1 = t2 := natStr_inj (List.reverse_inj.mp hsplit.1)
  have hsplit2 := append_sep_inj '-' _ _ _ _
    (by simp [List.mem_reverse]; exact fun hm => dash_not_in_natStr i hm)
    (by simp [List.mem_reverse]; exact fun hm => dash_not_in_natStr j hm) hsplit.2
  have hi : i = j := natStr_inj (List.reverse_inj.mp hsplit2.1)
  have hn : n1 = n2 := str_data_inj (List.reverse_inj.mp hsplit2.2)
  exact ⟨hn, hi, ht⟩

lemma sepId_inj {t1 t2 : Nat} {r1 r2 : String}
    (h : sepId t1 r1 = sepId t2 r2) : t1 = t2 ∧ r1 = r2 := by
  have hd : (sepId t1 r1).data = (sepId t2 r2).data := by rw [h]
  rw [sepId_data, sepId_data] at hd
  have hd2 := List.append_cancel_left hd
  have hd3 : natStr t1 ++ '-' :: r1.data = natStr t2 ++ '-' :: r2.data :=
    (List.cons.inj hd2).2
  have hsplit := append_sep_inj '-' _ _ _ _
    (dash_not_in_natStr t1) (dash_not_in_natStr t2) hd3
  exact ⟨natStr_inj hsplit.1, str_data_inj hsplit.2⟩

lemma sepId_ne_cardId {t : Nat} {r : String} {n : String} {i tc : Nat}
    (hdot : '.' ∈ r.data) (hdash : '-' ∉ r.data) : sepId t r ≠ cardId n i tc := by
  intro h
  have hd : (sepId t r).data = (cardId n i tc).data := by rw [h]
  rw [sepId_data, cardId_data] at hd
  have hrev := congrArg List.reverse hd
  rw [rev_shape, rev_shape] at hrev
  have hsplit := append_sep_inj '-' _ _ _ _
    (by simp [List.mem_reverse]; exact fun hm => hdash hm)
    (by simp [List.mem_reverse]; exact fun hm => dash_not_in_natStr tc hm) hrev
  have hr : r.data = natStr tc := List.reverse_inj.mp hsplit.1
  exact dot_not_in_natStr tc (hr ▸ hdot)

/-- Identifier list of the card part of one block, mirroring cardsFrom. -/
def cardIdsFrom (n : String) (ct : Nat → Nat) : Nat → List QA → List String
  | _, [] => []
  | i, _ :: ps => cardId n i (ct i) :: cardIdsFrom n ct (i + 1) ps

/-- Identifier list of one appended block. -/
def blockIds (f : FileSrc) : List String :=
  sepId f.sepTime f.rand :: cardIdsFrom f.name f.cardTime 0 (parseCSV f.text)

lemma map_entryId_cardsFrom (n : String) (ct : Nat → Nat) :
    ∀ (i : Nat) (ps : List QA), (cardsFrom n ct i ps).map entryId = cardIdsFrom n ct i ps := by
  intro i ps
  induction ps generalizing i with
  | nil => rfl
  | cons p ps ih => simp [cardsFrom, cardIdsFrom, entryId, ih]

lemma map_entryId_loadEntries (f : FileSrc) :
    (loadEntries f).map entryId = blockIds f := by
  simp [loadEntries, blockIds, entryId, map_entryId_cardsFrom]

lemma mem_cardIdsFrom {n : String} {ct : Nat → Nat} :
    ∀ {i : Nat} {ps : List QA} {x : String}, x ∈ cardIdsFrom n ct i ps →
      ∃ j, i ≤ j ∧ x = cardId n j (ct j) := by
  intro i ps
  induction ps generalizing i with
  | nil => intro x hx; exact absurd hx (List.not_mem_nil x)
  | cons p ps ih =>
    intro x hx
    rcases List.mem_cons.mp hx with h | h
    · exact ⟨i, le_rfl, h⟩
    · rcases ih h with ⟨j, hj, hx2⟩
      exact ⟨j, by omega, hx2⟩

lemma nodup_cardIdsFrom (n : String) (ct : Nat → Nat) :
    ∀ (i : Nat) (ps : List QA), (cardIdsFrom n ct i ps).Nodup := by
  intro i ps
  induction ps generalizing i with
  | nil => exact List.nodup_nil
  | cons p ps ih =>
    rw [cardIdsFrom, List.nodup_cons]
    refine ⟨fun hmem => ?_, ih (i + 1)⟩
    rcases mem_cardIdsFrom hmem with ⟨j, hj, hx⟩
    have := (cardId_inj hx).2.1
    omega

lemma nodup_blockIds (f : FileSrc)
    (hdot : '.' ∈ f.rand.data) (hdash : '-' ∉ f.rand.data) :
    (blockIds f).Nodup := by
  rw [blockIds, List.nodup_cons]
  refine ⟨fun hmem => ?_, nodup_cardIdsFrom _ _ _ _⟩
  rcases mem_cardIdsFrom hmem with ⟨j, _, hx⟩
  exact sepId_ne_cardId hdot hdash hx

lemma blockIds_disjoint (f g : FileSrc)
    (hf : '.' ∈ f.rand.data ∧ '-' ∉ f.rand.data)
    (hg : '.' ∈ g.rand.data ∧ '-' ∉ g.rand.data)
    (hsep : f.sepTime ≠ g.sepTime ∨ f.rand ≠ g.rand)
    (hcard : f.name = g.name → ∀ i, f.cardTime i ≠ g.cardTime i) :
    ∀ x ∈ blockIds f, x ∉ blockIds g := by
  intro x hxf hxg
  rcases List.mem_cons.mp hxf with hf1 | hf1 <;> rcases List.mem_cons.mp hxg with hg1 | hg1
  · subst hf1
    have := sepId_inj hg1
    rcases hsep with h | h
    · exact h this.1
    · exact h this.2
  · subst hf1
    rcases mem_cardIdsFrom hg1 with ⟨j, _, hx⟩
    exact sepId_ne_cardId hf.1 hf.2 hx
  · rcases mem_cardIdsFrom hf1 with ⟨j, _, hx⟩
    exact sepId_ne_cardId hg.1 hg.2 (hg1.symm.trans hx)
  · rcases mem_cardIdsFrom hf1 with ⟨j1, _, hx1⟩
    rcases mem_cardIdsFrom hg1 with ⟨j2, _, hx2⟩
    subst hx1
    rcases cardId_inj hx2 with ⟨hn, hi, ht⟩
    subst hi
    exact hcard hn j1 ht

lemma deckIds_eq (ops : List FileSrc) :
    (runLoads [] ops).map entryId = (ops.map blockIds).flatten := by
  rw [runLoads_eq, List.nil_append, List.map_flatten, List.map_map]
  congr 1
  exact List.map_congr_left (fun f _ => map_entryId_loadEntries f)

/-- C2 (amended): the ids of a deck produced by any sequence of load
completions are pairwise distinct, provided the environment samples
behave as in practice: every stringified Math.random() value contains a
dot and no hyphen, and distinct completions differ in separator
timestamp or random sample.  Card ids need no hypothesis across
differently named sources (a card id decomposes uniquely into name,
index and timestamp, so they can never collide); only two completions
of the SAME source name need their card timestamps to differ at equal
row indices — exactly the collision the counterexample exhibits. -/
theorem claim2_ids_unique_amended (ops : List FileSrc)
    (hrand : ∀ f ∈ ops, '.' ∈ f.rand.data ∧ '-' ∉ f.rand.data)
    (hdistinct : ops.Pairwise (fun f g =>
      (f.sepTime ≠ g.sepTime ∨ f.rand ≠ g.rand)
      ∧ (f.name = g.name → ∀ i, f.cardTime i ≠ g.cardTime i))) :
    ((runLoads [] ops).map entryId).Nodup := by
  rw [deckIds_eq]
  induction ops with
  | nil => exact List.nodup_nil
  | cons f ops ih =>
    rw [List.map_cons, List.flatten_cons, List.nodup_append]
    have hfr := hrand f (List.mem_cons_self f ops)
    have hpair := List.pairwise_cons.mp hdistinct
    refine ⟨nodup_blockIds f hfr.1 hfr.2,
      ih (fun g hg => hrand g (List.mem_cons_of_mem f hg)) hpair.2, ?_⟩
    intro x hxf hxflat
    rcases List.mem_flatten.mp hxflat with ⟨l, hl, hxl⟩
    rcases List.mem_map.mp hl with ⟨g, hgops, hgl⟩
    subst hgl
    have hgr := hrand g (List.mem_cons_of_mem f hgops)
    have hR := hpair.1 g hgops
    exact blockIds_disjoint f g hfr hgr hR.1 hR.2 x hxf hxl

/-- Two completions of the same file name in the same millisecond, as
the clock allows: both card id templates produce the same id. -/
def dupA : FileSrc := ⟨"a.csv", "Q,A", 1, fun _ => 100, "0.1"⟩

def dupB : FileSrc := ⟨"a.csv", "Q,A", 2, fun _ => 100, "0.2"⟩

/-- Counterexample to C2 as stated: the deck reached by ingesting the
same file twice with both completions observing Date.now() = 100 holds
two entries with the identical id a.csv-0-100, so ids are not unique for
every reachable deck. -/
theorem claim2_ids_unique_counterexample :
    ¬ ((runLoads [] [dupA, dupB]).map entryId).Nodup := by decide

/-- Two differently named sources whose completions all observe the very
same millisecond, Date.now() = 100: the spec's central concurrent
scenario, where the code does keep ids unique. -/
def simA : FileSrc := ⟨"a.csv", "Q,A", 100, fun _ => 100, "0.25"⟩

def simB : FileSrc := ⟨"b.csv", "X,Y", 100, fun _ => 100, "0.5"⟩

/-- Witness for the amended C2: two distinct-named sources completing in
the same millisecond (equal separator and card timestamps, distinct
random samples) satisfy the hypotheses, and all ids stay unique. -/
theorem claim2_ids_unique_amended_witness :
    (∀ f ∈ [simA, simB], '.' ∈ f.rand.data ∧ '-' ∉ f.rand.data)
    ∧ ([simA, simB].Pairwise (fun f g =>
        (f.sepTime ≠ g.sepTime ∨ f.rand ≠ g.rand)
        ∧ (f.name = g.name → ∀ i, f.cardTime i ≠ g.cardTime i)))
    ∧ ((runLoads [] [simA, simB]).map entryId).Nodup := by
  have h1 : ∀ f ∈ [simA, simB], '.' ∈ f.rand.data ∧ '-' ∉ f.rand.data := by decide
  have h2 : ([simA, simB].Pairwise (fun f g =>
      (f.sepTime ≠ g.sepTime ∨ f.rand ≠ g.rand)
      ∧ (f.name = g.name → ∀ i, f.cardTime i ≠ g.cardTime i))) := by
    refine List.Pairwise.cons (fun g hg => ?_) (List.Pairwise.cons (fun g hg => ?_) List.Pairwise.nil)
    · have : g = simB := List.mem_singleton.mp hg
      subst this
      exact ⟨Or.inr (by decide), fun hname => absurd hname (by decide)⟩
    · exact absurd hg (List.not_mem_nil g)
  exact ⟨h1, h2, claim2_ids_unique_amended [simA, simB] h1 h2⟩
